import Mathlib

/-!
# Verification of the `pdf_access` processing pipeline

A shallow embedding of the core of `felddy/pdf-access`
(`src/pdf_access/process.py`, `src/pdf_access/registry.py`,
`src/pdf_access/bases.py`, `src/pdf_access/config_model.py`) together with
proofs of the behavioural properties of its plan selection, authentication,
action execution, save/scrub, registry discovery and per-file orchestration.

Python dicts preserve insertion order, so every mapping (`plans`,
`metadata_search`, registries, document metadata) is embedded as an
association list `List (String × _)` whose list order is the dict's
iteration order.  Compiled regexes are embedded as their `search`
predicate `String → Bool`.  Functions that the Python code calls for
their side effects are instrumented to also return the trace of those
effects (passwords attempted, actions invoked, pdf operations issued),
so that claims about "what gets called" become claims about the trace.
-/

namespace PdfAccess

/-- First-match association-list lookup: `d.get(k)` / `k in d` on a Python
dict embedded as a list of key/value pairs in iteration order. -/
def lookupKey {α : Type} (l : List (String × α)) (k : String) : Option α :=
  (l.find? (fun kv => kv.1 == k)).map (fun kv => kv.2)

/-- A compiled regular expression, embedded as its `search` predicate. -/
abbrev Regex := String → Bool

/-- `config_model.Action`: one configured action entry.  The argument map
is opaque to the orchestrator (it is splatted into the implementation). -/
structure ActionConf where
  args : List (String × String)
  function : String
  name : String

/-- `config_model.Plan`: a configured plan.  `metadata_search` and
`path_regex` hold compiled regexes (their `search` predicates). -/
structure Plan where
  actions : List ActionConf
  comment : String
  metadata_search : List (String × Regex)
  passwords : List String
  path_regex : Regex
  post_process : List String

/-- `config_model.Source`: a configured source directory pair. -/
structure Source where
  in_path : String
  out_path : String
  out_suffix : String
  plans : List String

/-- The opaque `fitz.Document` capability as used by the orchestrator:
display name, encryption flag, metadata mapping, and the password
predicate realised by `doc.authenticate`. -/
structure Document where
  name : String
  is_encrypted : Bool
  metadata : List (String × String)
  authenticate : String → Bool

/-! ## `process.do_authentication` (process.py lines 30-43)

The nested password loop, instrumented with the trace of passwords
attempted (one entry per `doc.authenticate(password)` call, in call
order). -/

/-- The inner `for password in plan.passwords` loop: try each password in
list order, returning on the first success. -/
def tryPasswords (doc : Document) : List String → Bool × List String
  | [] => (false, [])
  | pw :: rest =>
    if doc.authenticate pw then (true, [pw])
    else
      let r := tryPasswords doc rest
      (r.1, pw :: r.2)

/-- The outer `for plan_name, plan in plans.items()` loop. -/
def tryPlans (doc : Document) : List (String × Plan) → Bool × List String
  | [] => (false, [])
  | (_, plan) :: rest =>
    let r := tryPasswords doc plan.passwords
    if r.1 then r
    else
      let r2 := tryPlans doc rest
      (r2.1, r.2 ++ r2.2)

/-- `do_authentication(doc, plans)`: unencrypted documents pass
immediately; otherwise every plan's password list is scanned in mapping
order until one password authenticates.  The second component is the
trace of attempted passwords. -/
def do_authentication (doc : Document) (plans : List (String × Plan)) :
    Bool × List String :=
  if !doc.is_encrypted then (true, [])
  else tryPlans doc plans

/-! ## `process.select_plans_for_source` (process.py lines 46-55) -/

/-- `select_plans_for_source(source, plans)`: an empty `source.plans` list
means every plan is in scope, otherwise keep exactly the configured plans
whose key occurs in `source.plans`. -/
def select_plans_for_source (source : Source) (plans : List (String × Plan)) :
    List (String × Plan) :=
  if source.plans.length = 0 then plans
  else plans.filter (fun kv => source.plans.contains kv.1)

/-! ## `process.select_plan_for_doc` (process.py lines 58-108) -/

/-- The `for field, regex in plan.metadata_search.items()` loop: returns
`true` as soon as some entry fails (`matches_failed` in the source),
either because the field is absent from the document metadata or because
the regex does not match its value. -/
def metadataFailed (md : List (String × String)) :
    List (String × Regex) → Bool
  | [] => false
  | (field, regex) :: rest =>
    match lookupKey md field with
    | none => true
    | some value => if !regex value then true else metadataFailed md rest

/-- `select_plan_for_doc(doc, plans)`: first plan (in mapping order) whose
`path_regex` matches `doc.name` and whose `metadata_search` entries all
match is returned; `none` when no plan matches. -/
def select_plan_for_doc (doc : Document) :
    List (String × Plan) → Option Plan
  | [] => none
  | (_, plan) :: rest =>
    if !plan.path_regex doc.name then select_plan_for_doc doc rest
    else if metadataFailed doc.metadata plan.metadata_search then
      select_plan_for_doc doc rest
    else some plan

/-! ## Specification-side predicates used to state the claims -/

/-- A plan matches a document when its path regex matches the document
name and every `metadata_search` entry names a present metadata field
whose value the entry's regex matches. -/
def planMatches (doc : Document) (plan : Plan) : Bool :=
  plan.path_regex doc.name &&
    plan.metadata_search.all (fun fr =>
      match lookupKey doc.metadata fr.1 with
      | none => false
      | some value => fr.2 value)

/-- The prefix of a password list up to and including the first password
the document accepts (the whole list when none is accepted). -/
def firstSuccessPrefix (auth : String → Bool) : List String → List String
  | [] => []
  | pw :: rest => if auth pw then [pw] else pw :: firstSuccessPrefix auth rest

/-- All candidate passwords of the in-scope plans, flattened in scan
order: plans in mapping order, each plan's passwords in list order. -/
def allPasswords (plans : List (String × Plan)) : List String :=
  plans.flatMap (fun kv => kv.2.passwords)

/-! ## `process.apply_actions` (process.py lines 111-149)

An action implementation mutates the document and reports
`(change_count, should_continue)`; the embedding threads the document
explicitly.  `apply_actions` is instrumented with the list of action
names actually invoked (one entry per `action_function.apply` call, in
call order — the `Running action` log line). -/

/-- A registered `ActionBase` subclass: its `registry_id` and its
`apply(doc, **args) -> (change_count, should_continue)` entrypoint. -/
structure ActionImpl where
  registry_id : String
  apply : Document → List (String × String) → Document × Nat × Bool

/-- The `for action in plan.actions` loop of `apply_actions`: a `function`
key missing from the registry skips that action and continues; an
implementation returning `should_continue = false` returns `false` at
once.  Result: (document after the invoked actions, should-continue flag,
names of the invoked actions). -/
def applyActionsList (doc : Document) (reg : List (String × ActionImpl)) :
    List ActionConf → Document × Bool × List String
  | [] => (doc, true, [])
  | a :: rest =>
    match lookupKey reg a.function with
    | none => applyActionsList doc reg rest
    | some impl =>
      let r := impl.apply doc a.args
      if !r.2.2 then (r.1, false, [a.name])
      else
        let t := applyActionsList r.1 reg rest
        (t.1, t.2.1, a.name :: t.2.2)

/-- `apply_actions(doc, plan, action_registry)`. -/
def apply_actions (doc : Document) (plan : Plan)
    (reg : List (String × ActionImpl)) : Document × Bool × List String :=
  applyActionsList doc reg plan.actions

/-! ## `process.save_pdf` (process.py lines 152-192)

Embedded as the sequence of operations issued on the document.  Option
records default to the `fitz` defaults (everything off), so the
definitions pass exactly the keyword arguments the source passes. -/

/-- Keyword arguments of `fitz.Document.scrub`. -/
structure ScrubOptions where
  attached_files : Bool := true
  clean_pages : Bool := true
  embedded_files : Bool := true
  hidden_text : Bool := true
  javascript : Bool := true
  metadata : Bool := true
  redactions : Bool := true
  redact_images : Nat := 0
  remove_links : Bool := true
  reset_fields : Bool := true
  reset_responses : Bool := true
  thumbnails : Bool := true
  xml_metadata : Bool := true
deriving DecidableEq, Repr

/-- Keyword arguments of `fitz.Document.save`. -/
structure SaveOptions where
  ascii : Bool := false
  clean : Bool := false
  deflate : Bool := false
  deflate_fonts : Bool := false
  deflate_images : Bool := false
  expand : Nat := 0
  garbage : Nat := 0
  linear : Bool := false
  pretty : Bool := false
deriving DecidableEq, Repr

/-- One operation issued on the document while saving. -/
inductive PdfOp where
  | scrub (opts : ScrubOptions)
  | save (opts : SaveOptions)
deriving DecidableEq, Repr

/-- `save_pdf(doc, out_file, debug)`: in debug mode a single unoptimized
save; otherwise a scrub (with `metadata=False` and
`reset_responses=False`, the latter because it causes a seg-fault)
followed by the optimized save. -/
def save_pdf (debug : Bool) : List PdfOp :=
  if debug then
    [PdfOp.save { ascii := true, clean := true, deflate := false,
                  expand := 255, garbage := 4, linear := false,
                  pretty := true }]
  else
    [PdfOp.scrub { attached_files := true, clean_pages := true,
                   embedded_files := true, hidden_text := true,
                   javascript := true, metadata := false,
                   redactions := true, redact_images := 0,
                   remove_links := true, reset_fields := true,
                   reset_responses := false, thumbnails := true,
                   xml_metadata := true },
     PdfOp.save { clean := true, deflate_fonts := true,
                  deflate_images := true, deflate := true,
                  garbage := 4, linear := true }]

/-! ## `process.apply_post_processing` (process.py lines 195-219) -/

/-- A registered `PostProcessBase` subclass (its file mutation is outside
the document model; the orchestrator records which ones ran). -/
structure PostProcessImpl where
  registry_id : String

/-- `apply_post_processing(in_file, out_file, plan, registry)`: iterate
the plan's post-processor names in order, skipping names missing from the
registry; result is the `registry_id`s of the post-processors applied, in
order. -/
def apply_post_processing (plan : Plan)
    (ppreg : List (String × PostProcessImpl)) : List String :=
  plan.post_process.filterMap
    (fun n => (lookupKey ppreg n).map (fun pp => pp.registry_id))

/-! ## `process.size_report` (process.py lines 222-234) -/

/-- The data of the one log line `size_report` emits. `info_level` is true
when the line is logged via `logging.info` (shrinking output), false for
`logging.warn`. -/
structure SizeLog where
  in_size : Nat
  out_size : Nat
  delta : Int
  percent : Rat
  info_level : Bool
deriving DecidableEq, Repr

/-- `size_report(in_path, out_path)` on files of the given byte sizes.
`percent = (out_size - in_size) / in_size * 100.0`; when `in_size = 0`
the division raises `ZeroDivisionError`, embedded as `none`. -/
def size_report (in_size out_size : Nat) : Option SizeLog :=
  if in_size = 0 then none
  else
    let percent : Rat := ((out_size : Rat) - (in_size : Rat)) / in_size * 100
    some { in_size := in_size, out_size := out_size,
           delta := (out_size : Int) - (in_size : Int),
           percent := percent,
           info_level := decide (percent < 0) }

/-! ## Per-file orchestration (`process.process`, process.py lines 289-339)

The body of the `for in_file in in_files` loop, for one input file.  File
system inputs are abstracted to the data the branch conditions and the
size report read: whether the output file exists, the two modification
times, the input file's byte size, and the byte size the temporary output
file has after save and post-processing. -/

/-- The terminal state the per-file pipeline reaches. -/
inductive FileOutcome where
  /-- Output exists and is newer than the input (and no force flag). -/
  | stale
  /-- `do_authentication` returned false: no password found. -/
  | authFailed
  /-- `select_plan_for_doc` returned none: no plan found. -/
  | noPlan
  /-- `apply_actions` returned false: an action halted processing. -/
  | actionHalted
  /-- `size_report` raised `ZeroDivisionError` (zero-byte input). -/
  | raisedSizeReport
  /-- Dry run: temporary output deleted, real output untouched. -/
  | dryRunDiscarded
  /-- Temporary output atomically replaced the real output file. -/
  | committed
deriving DecidableEq, Repr

/-- Observable effects of processing one file. -/
structure FileResult where
  outcome : FileOutcome
  /-- `fitz.open(in_file)` was reached. -/
  docOpened : Bool
  /-- Passwords attempted by `do_authentication`, in order. -/
  authAttempts : List String
  /-- Names of the actions `apply_actions` invoked, in order. -/
  actionsRun : List String
  /-- Operations `save_pdf` issued on the document (empty: no temporary
  file was written). -/
  pdfOps : List PdfOp
  /-- `registry_id`s of the post-processors applied, in order. -/
  postProcessorsRun : List String
  /-- The size-comparison log line, when `size_report` ran. -/
  sizeLogged : Option SizeLog
  /-- The real output file was replaced by the temporary file. -/
  outputReplaced : Bool
  /-- The temporary output file was deleted (dry run). -/
  tempDeleted : Bool
deriving DecidableEq, Repr

/-- One iteration of the per-file loop of `process`: staleness check,
open, authentication, plan selection, actions, save, post-processing,
size report, and commit or discard. -/
def process_file (force dry_run debug : Bool) (out_exists : Bool)
    (in_mtime out_mtime : Nat) (doc : Document)
    (plans : List (String × Plan)) (reg : List (String × ActionImpl))
    (ppreg : List (String × PostProcessImpl))
    (in_size out_size : Nat) : FileResult :=
  if !force && out_exists && decide (out_mtime > in_mtime) then
    { outcome := FileOutcome.stale, docOpened := false, authAttempts := [],
      actionsRun := [], pdfOps := [], postProcessorsRun := [],
      sizeLogged := none, outputReplaced := false, tempDeleted := false }
  else
    let auth := do_authentication doc plans
    if !auth.1 then
      { outcome := FileOutcome.authFailed, docOpened := true,
        authAttempts := auth.2, actionsRun := [], pdfOps := [],
        postProcessorsRun := [], sizeLogged := none,
        outputReplaced := false, tempDeleted := false }
    else
      match select_plan_for_doc doc plans with
      | none =>
        { outcome := FileOutcome.noPlan, docOpened := true,
          authAttempts := auth.2, actionsRun := [], pdfOps := [],
          postProcessorsRun := [], sizeLogged := none,
          outputReplaced := false, tempDeleted := false }
      | some plan =>
        let acts := apply_actions doc plan reg
        if !acts.2.1 then
          { outcome := FileOutcome.actionHalted, docOpened := true,
            authAttempts := auth.2, actionsRun := acts.2.2, pdfOps := [],
            postProcessorsRun := [], sizeLogged := none,
            outputReplaced := false, tempDeleted := false }
        else
          let ops := save_pdf debug
          let post := apply_post_processing plan ppreg
          match size_report in_size out_size with
          | none =>
            { outcome := FileOutcome.raisedSizeReport, docOpened := true,
              authAttempts := auth.2, actionsRun := acts.2.2,
              pdfOps := ops, postProcessorsRun := post,
              sizeLogged := none, outputReplaced := false,
              tempDeleted := false }
          | some log =>
            if dry_run then
              { outcome := FileOutcome.dryRunDiscarded, docOpened := true,
                authAttempts := auth.2, actionsRun := acts.2.2,
                pdfOps := ops, postProcessorsRun := post,
                sizeLogged := some log, outputReplaced := false,
                tempDeleted := true }
            else
              { outcome := FileOutcome.committed, docOpened := true,
                authAttempts := auth.2, actionsRun := acts.2.2,
                pdfOps := ops, postProcessorsRun := post,
                sizeLogged := some log, outputReplaced := true,
                tempDeleted := false }

/-! ## `registry.discover_and_register` (registry.py lines 14-48)

`Registrable.register()` (bases.py) returns `cls.registry_id`.  The base
class only *annotates* `registry_id`, so a subclass that does not assign
it (e.g. `KeepPagesAction` and `GatedRegexAction`, which assign
`nice_name` instead) makes `register()` raise `AttributeError`; this is
embedded as `registry_id = none`.  An assigned but empty string is
`some ""` (falsy in the source's `if nice_name:` test). -/

/-- A discovered `Registrable` subclass.  `impl_name` stands for the
class object's identity; `registry_id` is its `registry_id` class
attribute, `none` when the attribute is not assigned. -/
structure Registrable where
  impl_name : String
  registry_id : Option String
deriving DecidableEq, Repr

/-- `Registrable.register()` — returns the `registry_id` attribute,
`none` embedding the `AttributeError` of an unassigned attribute. -/
def Registrable.register (c : Registrable) : Option String :=
  c.registry_id

/-- The discovery loop body: fold the discovered classes in discovery
order into the registry, raising (as `Except.error`) on a class whose
`register()` raises, on an empty key, and on a duplicate key. -/
def registerAll (acc : List (String × Registrable)) :
    List Registrable → Except String (List (String × Registrable))
  | [] => Except.ok acc
  | obj :: rest =>
    match obj.register with
    | none => Except.error "type object has no attribute"
    | some nice_name =>
      if nice_name = "" then
        Except.error "does not define a nice_name attribute"
      else if (acc.map (fun kv => kv.1)).contains nice_name then
        Except.error "Duplicate nice_name"
      else registerAll (acc ++ [(nice_name, obj)]) rest

/-- `discover_and_register(module, clazz)` applied to the list of
discovered subclasses, in discovery order. -/
def discover_and_register (impls : List Registrable) :
    Except String (List (String × Registrable)) :=
  registerAll [] impls

/-- The registry entry a successfully registered class contributes. -/
def registryEntry (c : Registrable) : String × Registrable :=
  (c.registry_id.getD "", c)

/-- A class supplies a usable registration key: `registry_id` is assigned
and non-empty. -/
def hasValidId (c : Registrable) : Bool :=
  match c.registry_id with
  | none => false
  | some s => !(s == "")

/-- The key list a list of registrable classes would contribute. -/
def idKeys (l : List Registrable) : List String :=
  l.map (fun c => c.registry_id.getD "")

/-! ## Concrete instances used by the witness theorems -/

/-- An unencrypted example document. -/
def docPlain : Document :=
  { name := "report.pdf", is_encrypted := false,
    metadata := [("Title", "Draft 1")],
    authenticate := fun pw => pw == "secret" }

/-- The same document, reporting itself encrypted. -/
def docEnc : Document := { docPlain with is_encrypted := true }

/-- A plan whose path regex matches anything and with no metadata
criteria. -/
def planAny : Plan :=
  { actions := [], comment := "", metadata_search := [],
    passwords := ["wrong", "secret"], path_regex := fun _ => true,
    post_process := [] }

/-- A plan whose path regex rejects everything. -/
def planNoMatch : Plan :=
  { planAny with path_regex := fun _ => false, passwords := ["wrong"] }

/-- An action entry whose `function` key is not in the registry. -/
def actionMissing : ActionConf :=
  { args := [], function := "nosuch", name := "missing step" }

/-- An action entry resolved by `regHalt`. -/
def actionHaltConf : ActionConf :=
  { args := [], function := "halt", name := "halt step" }

/-- An action implementation that halts processing. -/
def implHalt : ActionImpl :=
  { registry_id := "halt", apply := fun d _ => (d, 0, false) }

/-- A registry holding only `implHalt`. -/
def regHalt : List (String × ActionImpl) := [("halt", implHalt)]

/-- A plan with an unresolvable action followed by the halting action. -/
def planMissingThenHalt : Plan :=
  { planAny with actions := [actionMissing, actionHaltConf] }

/-- A plan running only the halting action. -/
def planHaltOnly : Plan :=
  { planAny with actions := [actionHaltConf] }

/-- A source scoped to plan names, one of which matches no configured
plan. -/
def sourceScoped : Source :=
  { in_path := "in", out_path := "out", out_suffix := "-x",
    plans := ["a", "ghost"] }

/-- `KeepPagesAction`: assigns `nice_name` but not `registry_id`, so
`register()` raises `AttributeError`. -/
def regKeepPages : Registrable :=
  { impl_name := "KeepPagesAction", registry_id := none }

/-- `ClearStreamAction` with its `registry_id`. -/
def regClearStream : Registrable :=
  { impl_name := "ClearStreamAction", registry_id := some "clear-stream" }

/-- `DetectTextAction` with its `registry_id`. -/
def regDetectText : Registrable :=
  { impl_name := "DetectTextAction", registry_id := some "detect-text" }

/-! ## Helper lemmas -/

theorem metadataFailed_eq_not_all (md : List (String × String))
    (ms : List (String × Regex)) :
    metadataFailed md ms
      = !(ms.all fun fr =>
          match lookupKey md fr.1 with
          | none => false
          | some value => fr.2 value) := by
  induction ms with
  | nil => rfl
  | cons fr rest ih =>
    obtain ⟨field, regex⟩ := fr
    simp only [metadataFailed, List.all_cons]
    cases h : lookupKey md field with
    | none => simp [h]
    | some value =>
      by_cases hv : regex value
      · simp [h, hv, ih]
      · simp [h, hv]

theorem select_plan_for_doc_cons (doc : Document) (name : String)
    (plan : Plan) (rest : List (String × Plan)) :
    select_plan_for_doc doc ((name, plan) :: rest)
      = if planMatches doc plan then some plan
        else select_plan_for_doc doc rest := by
  simp only [select_plan_for_doc, planMatches, metadataFailed_eq_not_all]
  by_cases hp : plan.path_regex doc.name
  · by_cases hm : (plan.metadata_search.all fun fr =>
        match lookupKey doc.metadata fr.1 with
        | none => false
        | some value => fr.2 value)
    · simp [hp, hm]
    · simp [hp, hm]
  · simp [hp]

theorem select_plan_for_doc_eq_find (doc : Document)
    (plans : List (String × Plan)) :
    select_plan_for_doc doc plans
      = ((plans.find? fun pr => planMatches doc pr.2).map fun pr => pr.2) := by
  induction plans with
  | nil => rfl
  | cons pr rest ih =>
    obtain ⟨name, plan⟩ := pr
    rw [select_plan_for_doc_cons]
    by_cases h : planMatches doc plan
    · have hf : List.find? (fun pr => planMatches doc pr.2)
          ((name, plan) :: rest) = some (name, plan) :=
        List.find?_cons_of_pos _ (by simpa using h)
      rw [if_pos h, hf]
      rfl
    · have hf : List.find? (fun pr => planMatches doc pr.2)
          ((name, plan) :: rest)
            = List.find? (fun pr => planMatches doc pr.2) rest :=
        List.find?_cons_of_neg _ (by simpa using h)
      rw [if_neg h, hf, ih]

theorem tryPasswords_eq (doc : Document) (l : List String) :
    tryPasswords doc l
      = (l.any doc.authenticate, firstSuccessPrefix doc.authenticate l) := by
  induction l with
  | nil => rfl
  | cons pw rest ih =>
    simp only [tryPasswords, firstSuccessPrefix, List.any_cons]
    by_cases h : doc.authenticate pw
    · simp [h]
    · simp [h, ih]

theorem firstSuccessPrefix_append (auth : String → Bool)
    (l1 l2 : List String) :
    firstSuccessPrefix auth (l1 ++ l2)
      = if l1.any auth then firstSuccessPrefix auth l1
        else l1 ++ firstSuccessPrefix auth l2 := by
  induction l1 with
  | nil => simp
  | cons pw rest ih =>
    cases h : auth pw with
    | true => simp [firstSuccessPrefix, h]
    | false =>
      simp [firstSuccessPrefix, h, ih]
      split <;> simp [*]

theorem firstSuccessPrefix_of_none (auth : String → Bool) (l : List String)
    (h : l.any auth = false) : firstSuccessPrefix auth l = l := by
  induction l with
  | nil => rfl
  | cons pw rest ih =>
    simp only [List.any_cons, Bool.or_eq_false_iff] at h
    simp [firstSuccessPrefix, h.1, ih h.2]

theorem tryPlans_eq (doc : Document) (plans : List (String × Plan)) :
    tryPlans doc plans
      = ((allPasswords plans).any doc.authenticate,
         firstSuccessPrefix doc.authenticate (allPasswords plans)) := by
  induction plans with
  | nil => rfl
  | cons pr rest ih =>
    obtain ⟨name, plan⟩ := pr
    cases h : plan.passwords.any doc.authenticate with
    | true =>
      simp [tryPlans, tryPasswords_eq, allPasswords, List.any_append,
        firstSuccessPrefix_append, h]
    | false =>
      simp [tryPlans, tryPasswords_eq, allPasswords, List.any_append,
        firstSuccessPrefix_append, h, ih,
        firstSuccessPrefix_of_none doc.authenticate plan.passwords h]

theorem firstSuccessPrefix_of_first (auth : String → Bool)
    (pre : List String) (pw : String) (post : List String)
    (hpre : ∀ q ∈ pre, auth q = false) (hpw : auth pw = true) :
    firstSuccessPrefix auth (pre ++ pw :: post) = pre ++ [pw] := by
  induction pre with
  | nil => simp [firstSuccessPrefix, hpw]
  | cons q rest ih =>
    have hq : auth q = false := hpre q (List.mem_cons_self q rest)
    have ih' := ih (fun r hr => hpre r (List.mem_cons_of_mem q hr))
    simp [firstSuccessPrefix, hq, ih']

theorem any_of_first (auth : String → Bool) (pre : List String) (pw : String)
    (post : List String) (hpw : auth pw = true) :
    (pre ++ pw :: post).any auth = true := by
  simp [List.any_append, hpw]

theorem registerAll_ok (rest : List Registrable) :
    ∀ acc : List (String × Registrable),
      (∀ c ∈ rest, hasValidId c = true) →
      (acc.map (fun kv => kv.1) ++ idKeys rest).Nodup →
      registerAll acc rest = Except.ok (acc ++ rest.map registryEntry) := by
  induction rest with
  | nil => intro acc _ _; simp [registerAll]
  | cons c rest ih =>
    intro acc hval hnodup
    match hid : c.registry_id with
    | none =>
      exact absurd (hval c (List.mem_cons_self c rest))
        (by simp [hasValidId, hid])
    | some k =>
      have hk : ¬(k = "") := by
        have hv := hval c (List.mem_cons_self c rest)
        simp [hasValidId, hid] at hv
        exact hv
      have hkeys : acc.map (fun kv => kv.1) ++ idKeys (c :: rest)
          = acc.map (fun kv => kv.1) ++ (k :: idKeys rest) := by
        simp [idKeys, hid]
      rw [hkeys] at hnodup
      have hmem : k ∉ acc.map (fun kv => kv.1) := by
        have hdisj := (List.nodup_append.mp hnodup).2.2
        intro hin
        exact hdisj hin (List.mem_cons_self k (idKeys rest))
      have hcont : ((acc.map (fun kv => kv.1)).contains k) = false := by
        simpa [List.contains, List.elem_iff] using hmem
      simp only [registerAll, Registrable.register, hid, if_neg hk, hcont,
        Bool.false_eq_true, if_false]
      have hnodup' : ((acc ++ [(k, c)]).map (fun kv => kv.1)
          ++ idKeys rest).Nodup := by
        have : (acc ++ [(k, c)]).map (fun kv => kv.1) ++ idKeys rest
            = acc.map (fun kv => kv.1) ++ (k :: idKeys rest) := by
          simp
        rw [this]
        exact hnodup
      have := ih (acc ++ [(k, c)])
        (fun c' hc' => hval c' (List.mem_cons_of_mem c hc')) hnodup'
      rw [this]
      simp [registryEntry, hid]

theorem registerAll_ok_inv (rest : List Registrable) :
    ∀ (acc out : List (String × Registrable)),
      registerAll acc rest = Except.ok out →
      (∀ c ∈ rest, hasValidId c = true)
      ∧ (idKeys rest).Nodup
      ∧ ∀ c ∈ rest, c.registry_id.getD "" ∉ acc.map (fun kv => kv.1) := by
  induction rest with
  | nil => intro acc out _; simp [idKeys]
  | cons c rest ih =>
    intro acc out h
    match hid : c.registry_id with
    | none => simp [registerAll, Registrable.register, hid] at h
    | some k =>
      simp only [registerAll, Registrable.register, hid] at h
      by_cases hk : k = ""
      · rw [if_pos hk] at h
        cases h
      · rw [if_neg hk] at h
        by_cases hcont : ((acc.map (fun kv => kv.1)).contains k) = true
        · rw [if_pos hcont] at h
          cases h
        · rw [if_neg hcont] at h
          have hrest := ih (acc ++ [(k, c)]) out h
          have hknotacc : k ∉ acc.map (fun kv => kv.1) := by
            intro hin
            exact hcont (by simpa [List.contains, List.elem_iff] using hin)
          have hknotrest : k ∉ idKeys rest := by
            intro hmem
            obtain ⟨c', hc', hkey⟩ := List.mem_map.mp hmem
            have h3 := hrest.2.2 c' hc'
            rw [hkey] at h3
            exact h3 (by simp)
          refine ⟨?_, ?_, ?_⟩
          · intro c0 hc0
            rcases List.mem_cons.mp hc0 with hc0 | hc0
            · subst hc0
              simp [hasValidId, hid, hk]
            · exact hrest.1 c0 hc0
          · have : idKeys (c :: rest) = k :: idKeys rest := by
              simp [idKeys, hid]
            rw [this]
            exact List.Nodup.cons hknotrest hrest.2.1
          · intro c0 hc0
            rcases List.mem_cons.mp hc0 with hc0 | hc0
            · subst hc0
              simpa [hid] using hknotacc
            · have h3 := hrest.2.2 c0 hc0
              intro hin
              exact h3 (by simp [hin])

theorem size_report_eq_none_iff (in_size out_size : Nat) :
    size_report in_size out_size = none ↔ in_size = 0 := by
  by_cases h : in_size = 0 <;> simp [size_report, h]

theorem process_file_raised_imp_zero (force dry_run debug out_exists : Bool)
    (in_mtime out_mtime : Nat) (doc : Document)
    (plans : List (String × Plan)) (reg : List (String × ActionImpl))
    (ppreg : List (String × PostProcessImpl)) (in_size out_size : Nat) :
    (process_file force dry_run debug out_exists in_mtime out_mtime doc
        plans reg ppreg in_size out_size).outcome
      = FileOutcome.raisedSizeReport → in_size = 0 := by
  by_cases hstale : (!force && out_exists && decide (out_mtime > in_mtime)) = true
  · simp [process_file, hstale]
  · by_cases hauth : (do_authentication doc plans).1 = true
    · cases hplan : select_plan_for_doc doc plans with
      | none => simp [process_file, hstale, hauth, hplan]
      | some plan =>
        by_cases hact : (apply_actions doc plan reg).2.1 = true
        · cases hsr : size_report in_size out_size with
          | none =>
            intro _
            exact (size_report_eq_none_iff in_size out_size).mp hsr
          | some log =>
            by_cases hdry : dry_run = true <;>
              simp [process_file, hstale, hauth, hplan, hact, hsr, hdry]
        · simp [process_file, hstale, hauth, hplan, hact,
            Bool.not_eq_true _ ▸ hact]
    · simp [process_file, hstale, hauth, Bool.not_eq_true]

/-! ## The claims -/

/-- C1: `select_plan_for_doc` returns the first plan, in the mapping's
iteration order, whose `path_regex` matches the document name and whose
every `metadata_search` entry matches (field present in the metadata and
regex matching its value); a matching head plan is returned without the
remaining plans being evaluated; it returns `none` exactly when no
candidate satisfies both conditions; a plan with an empty
`metadata_search` map matches whenever its `path_regex` matches. -/
theorem select_plan_for_doc_first_match (doc : Document)
    (plans : List (String × Plan)) :
    select_plan_for_doc doc plans
        = ((plans.find? fun pr => planMatches doc pr.2).map fun pr => pr.2)
    ∧ (select_plan_for_doc doc plans = none
        ↔ ∀ pr ∈ plans, planMatches doc pr.2 = false)
    ∧ (∀ (name : String) (plan : Plan) (rest : List (String × Plan)),
        planMatches doc plan = true →
        select_plan_for_doc doc ((name, plan) :: rest) = some plan)
    ∧ ∀ plan : Plan, plan.metadata_search = [] →
        planMatches doc plan = plan.path_regex doc.name := by
  refine ⟨select_plan_for_doc_eq_find doc plans, ?_, ?_, ?_⟩
  · rw [select_plan_for_doc_eq_find]
    simp [Option.map_eq_none', List.find?_eq_none]
  · intro name plan rest h
    rw [select_plan_for_doc_cons, if_pos h]
  · intro plan h
    simp [planMatches, h]

/-- Witness for C1: the first in-scope plan matches `docPlain` and is
selected ahead of the remaining candidate. -/
theorem select_plan_for_doc_first_match_witness :
    planMatches docPlain planAny = true ∧
    select_plan_for_doc docPlain [("a", planAny), ("b", planNoMatch)]
      = some planAny :=
  ⟨rfl,
   (select_plan_for_doc_first_match docPlain
       [("a", planAny), ("b", planNoMatch)]).2.2.1 "a" planAny
     [("b", planNoMatch)] rfl⟩

/-- C2: on an encrypted document, `do_authentication` scans plans in the
mapping's iteration order and each plan's passwords in list order,
calling `doc.authenticate` exactly on the prefix of the flattened
password list up to and including the first successful password and
returning true at that point without attempting any later password; it
returns false exactly when every password of every in-scope plan fails,
all of them having been attempted. -/
theorem do_authentication_scan_order (doc : Document)
    (plans : List (String × Plan)) (henc : doc.is_encrypted = true) :
    do_authentication doc plans
        = ((allPasswords plans).any doc.authenticate,
           firstSuccessPrefix doc.authenticate (allPasswords plans))
    ∧ (∀ pre pw post, allPasswords plans = pre ++ pw :: post →
        (∀ q ∈ pre, doc.authenticate q = false) →
        doc.authenticate pw = true →
        do_authentication doc plans = (true, pre ++ [pw]))
    ∧ ((do_authentication doc plans).1 = false
        ↔ ∀ pw ∈ allPasswords plans, doc.authenticate pw = false)
    ∧ ((∀ pw ∈ allPasswords plans, doc.authenticate pw = false) →
        do_authentication doc plans = (false, allPasswords plans)) := by
  have hda : do_authentication doc plans = tryPlans doc plans := by
    simp [do_authentication, henc]
  refine ⟨?_, ?_, ?_, ?_⟩
  · rw [hda, tryPlans_eq]
  · intro pre pw post hsplit hpre hpw
    rw [hda, tryPlans_eq, hsplit, any_of_first _ _ _ _ hpw,
      firstSuccessPrefix_of_first _ _ _ _ hpre hpw]
  · rw [hda, tryPlans_eq]
    simp
  · intro hall
    have h1 : (allPasswords plans).any doc.authenticate = false := by
      simp only [List.any_eq_false]
      intro pw hpw
      simp [hall pw hpw]
    rw [hda, tryPlans_eq, h1, firstSuccessPrefix_of_none _ _ h1]

/-- Witness for C2: the correct password sits in the second plan; the two
earlier passwords are attempted, the correct one succeeds, the password
after it is never attempted. -/
theorem do_authentication_scan_order_witness :
    docEnc.is_encrypted = true ∧
    do_authentication docEnc [("p1", planNoMatch), ("p2", planAny)]
      = (true, ["wrong", "wrong", "secret"]) :=
  ⟨rfl,
   (do_authentication_scan_order docEnc [("p1", planNoMatch), ("p2", planAny)]
       rfl).2.1 ["wrong", "wrong"] "secret" [] rfl (by decide) rfl⟩

/-- C3: an action whose `apply` returns `should_continue = false` makes
`apply_actions` return false immediately, no action after it being
invoked, and the orchestrator then performs neither the save (no pdf
operations) nor any post-processing nor the final replace for that file:
the file's outcome is `actionHalted` and the run moves on. -/
theorem action_halt_stops_processing (doc : Document)
    (plans : List (String × Plan)) (plan : Plan)
    (reg : List (String × ActionImpl))
    (ppreg : List (String × PostProcessImpl)) (a : ActionConf)
    (rest : List ActionConf) (impl : ActionImpl)
    (force dry_run debug out_exists : Bool)
    (in_mtime out_mtime in_size out_size : Nat) :
    (lookupKey reg a.function = some impl →
      (impl.apply doc a.args).2.2 = false →
      applyActionsList doc reg (a :: rest)
        = ((impl.apply doc a.args).1, false, [a.name]))
    ∧ ((!force && out_exists && decide (out_mtime > in_mtime)) = false →
       (do_authentication doc plans).1 = true →
       select_plan_for_doc doc plans = some plan →
       (apply_actions doc plan reg).2.1 = false →
       process_file force dry_run debug out_exists in_mtime out_mtime doc
           plans reg ppreg in_size out_size
         = { outcome := FileOutcome.actionHalted, docOpened := true,
             authAttempts := (do_authentication doc plans).2,
             actionsRun := (apply_actions doc plan reg).2.2,
             pdfOps := [], postProcessorsRun := [], sizeLogged := none,
             outputReplaced := false, tempDeleted := false }) := by
  constructor
  · intro hlk hfalse
    simp [applyActionsList, hlk, hfalse]
  · intro hstale hauth hplan hact
    simp [process_file, hstale, hauth, hplan, hact]

/-- Witness for C3: the halting action runs, `apply_actions` stops, and
the file is skipped with no save, post-processing, or replace. -/
theorem action_halt_stops_processing_witness :
    process_file true false false true 0 0 docPlain [("p", planHaltOnly)]
        regHalt [] 10 5
      = { outcome := FileOutcome.actionHalted, docOpened := true,
          authAttempts := [], actionsRun := ["halt step"], pdfOps := [],
          postProcessorsRun := [], sizeLogged := none,
          outputReplaced := false, tempDeleted := false } :=
  (action_halt_stops_processing docPlain [("p", planHaltOnly)] planHaltOnly
      regHalt [] actionHaltConf [] implHalt true false false true
      0 0 10 5).2 rfl rfl rfl rfl

/-- C4: in normal (non-debug) mode, `save_pdf` first scrubs — removing
attachments, embedded files, hidden text, scripts, redaction artifacts,
links, form-field state, thumbnails and XML metadata, while keeping the
metadata text (`metadata := false`) and never resetting field responses
(`reset_responses := false`) — and only then performs the optimized save
with garbage collection, font/image deflation and linearization. -/
theorem save_pdf_normal_scrub_before_save :
    ∃ s v, save_pdf false = [PdfOp.scrub s, PdfOp.save v]
      ∧ s.attached_files = true ∧ s.embedded_files = true
      ∧ s.hidden_text = true ∧ s.javascript = true ∧ s.redactions = true
      ∧ s.remove_links = true ∧ s.reset_fields = true
      ∧ s.thumbnails = true ∧ s.xml_metadata = true ∧ s.metadata = false
      ∧ s.reset_responses = false ∧ v.garbage = 4 ∧ v.deflate = true
      ∧ v.deflate_fonts = true ∧ v.deflate_images = true
      ∧ v.linear = true := by
  refine ⟨_, _, rfl, ?_⟩
  decide

/-- C5: with the force flag unset and an existing output strictly newer
than the input, the per-file pipeline skips the file with zero writes: no
document open, no authentication attempt, no action, no pdf operation (so
no temporary file content), no post-processing, and no output change —
hence a second run on an unchanged input with an up-to-date newer output
writes nothing. -/
theorem stale_output_skips_file (dry_run debug : Bool)
    (in_mtime out_mtime : Nat) (doc : Document)
    (plans : List (String × Plan)) (reg : List (String × ActionImpl))
    (ppreg : List (String × PostProcessImpl)) (in_size out_size : Nat)
    (h : in_mtime < out_mtime) :
    process_file false dry_run debug true in_mtime out_mtime doc plans reg
        ppreg in_size out_size
      = { outcome := FileOutcome.stale, docOpened := false,
          authAttempts := [], actionsRun := [], pdfOps := [],
          postProcessorsRun := [], sizeLogged := none,
          outputReplaced := false, tempDeleted := false } := by
  simp [process_file, h]

/-- Witness for C5: an output one tick newer than the input is skipped
untouched. -/
theorem stale_output_skips_file_witness :
    (0 : Nat) < 1 ∧
    process_file false false false true 0 1 docPlain [("p", planAny)]
        regHalt [] 5 5
      = { outcome := FileOutcome.stale, docOpened := false,
          authAttempts := [], actionsRun := [], pdfOps := [],
          postProcessorsRun := [], sizeLogged := none,
          outputReplaced := false, tempDeleted := false } :=
  ⟨by decide,
   stale_output_skips_file false false 0 1 docPlain [("p", planAny)]
     regHalt [] 5 5 (by decide)⟩

/-- C6: an action whose `function` key is absent from the registry is
skipped with a warning and the remaining actions of the plan are
processed exactly as if the unresolved action were not there: the plan is
not aborted and the file is not skipped on account of the missing key. -/
theorem missing_action_function_skipped (doc : Document)
    (reg : List (String × ActionImpl)) (plan plan' : Plan) (a : ActionConf)
    (hacts : plan.actions = a :: plan'.actions)
    (h : lookupKey reg a.function = none) :
    apply_actions doc plan reg = apply_actions doc plan' reg := by
  unfold apply_actions
  rw [hacts]
  simp [applyActionsList, h]

/-- Witness for C6: a plan starting with an unresolvable action behaves
like the same plan without it; the halting action after it still runs. -/
theorem missing_action_function_skipped_witness :
    lookupKey regHalt actionMissing.function = none ∧
    apply_actions docPlain planMissingThenHalt regHalt
      = apply_actions docPlain planHaltOnly regHalt :=
  ⟨rfl,
   missing_action_function_skipped docPlain regHalt planMissingThenHalt
     planHaltOnly actionMissing rfl rfl⟩

/-- C7: `discover_and_register` fails before any file is processed
whenever some discovered implementation supplies no non-empty
registration key (an unassigned `registry_id` — `AttributeError` — or an
empty one) and whenever two implementations register the same key;
otherwise it returns the mapping with exactly one entry per discovered
implementation, keyed by its `register()` result, in discovery order. -/
theorem discover_and_register_spec (impls : List Registrable) :
    ((∀ c ∈ impls, hasValidId c = true) → (idKeys impls).Nodup →
      discover_and_register impls = Except.ok (impls.map registryEntry))
    ∧ ((∃ c ∈ impls, hasValidId c = false) →
        ∃ msg, discover_and_register impls = Except.error msg)
    ∧ (¬(idKeys impls).Nodup →
        ∃ msg, discover_and_register impls = Except.error msg) := by
  refine ⟨?_, ?_, ?_⟩
  · intro hval hnodup
    have h := registerAll_ok impls [] hval (by simpa using hnodup)
    simpa [discover_and_register] using h
  · intro hbad
    obtain ⟨c, hc, hbad⟩ := hbad
    cases hres : discover_and_register impls with
    | error msg => exact ⟨msg, rfl⟩
    | ok out =>
      have h1 := (registerAll_ok_inv impls [] out hres).1 c hc
      rw [hbad] at h1
      simp at h1
  · intro hdup
    cases hres : discover_and_register impls with
    | error msg => exact ⟨msg, rfl⟩
    | ok out => exact absurd (registerAll_ok_inv impls [] out hres).2.1 hdup

/-- Witness for C7: two well-keyed classes register as exactly two
entries; adding `KeepPagesAction` (which assigns `nice_name`, not
`registry_id`) makes discovery fail before any file is processed. -/
theorem discover_and_register_spec_witness :
    (∀ c ∈ [regClearStream, regDetectText], hasValidId c = true) ∧
    (idKeys [regClearStream, regDetectText]).Nodup ∧
    discover_and_register [regClearStream, regDetectText]
      = Except.ok [("clear-stream", regClearStream),
                   ("detect-text", regDetectText)] ∧
    ∃ msg, discover_and_register [regClearStream, regKeepPages]
      = Except.error msg :=
  ⟨by decide, by decide,
   (discover_and_register_spec [regClearStream, regDetectText]).1
     (by decide) (by decide),
   (discover_and_register_spec [regClearStream, regKeepPages]).2.1
     ⟨regKeepPages, by decide, rfl⟩⟩

/-- C8 counterexample: on a zero-byte input file, `size_report` does not
return normally — `(out_size - in_size) / in_size` raises
`ZeroDivisionError` (embedded as `none`), refuting the claim's "including
an input file of zero bytes". -/
theorem size_report_zero_input_raises : size_report 0 5 = none := rfl

/-- C8 (amended): for every pair of existing files whose input has
non-zero size, `size_report` — run after all post-processors — logs the
byte-size comparison (both sizes, the signed delta, info level exactly
when the output shrank) and returns normally, and the pipeline never
aborts in its size-report step; on a zero-byte input the division
raises. -/
theorem size_report_nonzero_informational (in_size out_size : Nat)
    (h : in_size ≠ 0) (force dry_run debug out_exists : Bool)
    (in_mtime out_mtime : Nat) (doc : Document)
    (plans : List (String × Plan)) (reg : List (String × ActionImpl))
    (ppreg : List (String × PostProcessImpl)) :
    (∃ log, size_report in_size out_size = some log
      ∧ log.in_size = in_size ∧ log.out_size = out_size
      ∧ log.delta = (out_size : Int) - (in_size : Int)
      ∧ (log.info_level = true ↔ out_size < in_size))
    ∧ (process_file force dry_run debug out_exists in_mtime out_mtime doc
        plans reg ppreg in_size out_size).outcome
          ≠ FileOutcome.raisedSizeReport := by
  constructor
  · refine ⟨{ in_size := in_size, out_size := out_size,
              delta := (out_size : Int) - (in_size : Int),
              percent := ((out_size : Rat) - (in_size : Rat)) / in_size * 100,
              info_level := decide
                (((out_size : Rat) - (in_size : Rat)) / in_size * 100 < 0) },
            by simp [size_report, h], rfl, rfl, rfl, ?_⟩
    have hpos : (0 : Rat) < (in_size : Rat) := by
      exact_mod_cast Nat.pos_of_ne_zero h
    rw [decide_eq_true_iff, div_mul_eq_mul_div, div_neg_iff]
    constructor
    · rintro (⟨_, h2⟩ | ⟨h1, _⟩)
      · exact absurd h2 (not_lt.mpr hpos.le)
      · have hq : (out_size : Rat) < (in_size : Rat) := by nlinarith
        exact_mod_cast hq
    · intro hlt
      have hq : (out_size : Rat) < (in_size : Rat) := by exact_mod_cast hlt
      exact Or.inr ⟨by nlinarith, hpos⟩
  · intro hc
    exact h (process_file_raised_imp_zero force dry_run debug out_exists
      in_mtime out_mtime doc plans reg ppreg in_size out_size hc)

/-- Witness for C8 (amended): a ten-byte input shrunk to five bytes is
logged at info level and the pipeline does not abort. -/
theorem size_report_nonzero_informational_witness :
    (10 : Nat) ≠ 0 ∧
    ((∃ log, size_report 10 5 = some log
        ∧ log.in_size = 10 ∧ log.out_size = 5
        ∧ log.delta = (5 : Int) - (10 : Int)
        ∧ (log.info_level = true ↔ 5 < 10))
      ∧ (process_file true false false true 0 0 docPlain [("p", planAny)]
          regHalt [] 10 5).outcome ≠ FileOutcome.raisedSizeReport) :=
  ⟨by decide,
   size_report_nonzero_informational 10 5 (by decide) true false false true
     0 0 docPlain [("p", planAny)] regHalt []⟩

/-- C9: a document that reports itself unencrypted passes
`do_authentication` immediately: the result is true and the trace of
`doc.authenticate` calls is empty, whatever the in-scope plans and their
password lists. -/
theorem do_authentication_unencrypted_immediate (doc : Document)
    (plans : List (String × Plan)) (h : doc.is_encrypted = false) :
    do_authentication doc plans = (true, []) := by
  simp [do_authentication, h]

/-- Witness for C9: the unencrypted document passes with zero password
attempts even though the plans carry passwords. -/
theorem do_authentication_unencrypted_immediate_witness :
    docPlain.is_encrypted = false ∧
    do_authentication docPlain [("p1", planNoMatch), ("p2", planAny)]
      = (true, []) :=
  ⟨rfl,
   do_authentication_unencrypted_immediate docPlain
     [("p1", planNoMatch), ("p2", planAny)] rfl⟩

/-- C10: `select_plans_for_source` returns the whole plan mapping when
the source's plan-name list is empty; otherwise its result is a sublist
of the configuration mapping (iteration order preserved, plan values
unmodified) containing exactly the entries whose name appears in the
source's list — names matching no configured plan are silently ignored. -/
theorem select_plans_for_source_spec (source : Source)
    (plans : List (String × Plan)) :
    (source.plans = [] → select_plans_for_source source plans = plans)
    ∧ (select_plans_for_source source plans).Sublist plans
    ∧ (source.plans ≠ [] →
        ∀ kv : String × Plan, kv ∈ select_plans_for_source source plans
          ↔ kv ∈ plans ∧ kv.1 ∈ source.plans) := by
  refine ⟨?_, ?_, ?_⟩
  · intro h
    simp [select_plans_for_source, h]
  · by_cases h : source.plans.length = 0
    · simp [select_plans_for_source, h]
    · simp only [select_plans_for_source, h, if_false]
      exact List.filter_sublist _
  · intro h kv
    have hlen : ¬source.plans.length = 0 := by
      simpa [List.length_eq_zero] using h
    simp [select_plans_for_source, hlen, List.mem_filter, List.contains,
      List.elem_iff]

/-- Witness for C10: with a non-empty scope list naming one real plan and
one ghost, membership in the result is exactly joint membership. -/
theorem select_plans_for_source_spec_witness :
    sourceScoped.plans ≠ [] ∧
    (("a", planAny)
        ∈ select_plans_for_source sourceScoped
            [("a", planAny), ("b", planNoMatch)]
      ↔ ("a", planAny) ∈ [("a", planAny), ("b", planNoMatch)]
          ∧ "a" ∈ sourceScoped.plans) :=
  ⟨by decide,
   (select_plans_for_source_spec sourceScoped
       [("a", planAny), ("b", planNoMatch)]).2.2 (by decide)
     ("a", planAny)⟩

end PdfAccess
